import Mathlib

/-!
Verification development for the grok-imagine-favorites-manager browser
extension.  The data model and operations below are a shallow embedding of
`src/content.js` (filename resolver, media collector, scroll driver,
unfavorite sequencer) and `src/background.js` (download orchestrator and
download-state tracking).  Strings are handled through their character
lists so that every definition is executable and kernel-reducible; the
platform primitives (URL parsing, the DOM, the download-state feed, the
HD-probe network check and the wall clock) appear as explicit parameters.
-/

/-! ## Character and string utilities (kernel-reducible models of the
JS string/regex operations used by the source) -/

/-- Decimal digit, as in the character class `[0-9]`. -/
def isDigitChar (c : Char) : Bool := 48 ≤ c.toNat && c.toNat ≤ 57

/-- Hex digit as matched case-insensitively by `[0-9a-f]` under the `i` flag. -/
def isHexChar (c : Char) : Bool :=
  isDigitChar c || (97 ≤ c.toNat && c.toNat ≤ 102) || (65 ≤ c.toNat && c.toNat ≤ 70)

/-- Alphanumeric, as in the character class `[a-zA-Z0-9]`. -/
def isAlnumChar (c : Char) : Bool :=
  isDigitChar c || (97 ≤ c.toNat && c.toNat ≤ 122) || (65 ≤ c.toNat && c.toNat ≤ 90)

/-- ASCII lower-casing of one character, as done by `String.toLowerCase`
on the ASCII strings this extension manipulates. -/
def lowerChar (c : Char) : Char :=
  if 65 ≤ c.toNat && c.toNat ≤ 90 then Char.ofNat (c.toNat + 32) else c

/-- Lower-cased copy of a string (`url.toLowerCase()`). -/
def lowerStr (s : String) : String := String.mk (s.data.map lowerChar)

/-- `pat` is a prefix of `l` (character-exact). -/
def isPrefixL : List Char → List Char → Bool
  | [], _ => true
  | _ :: _, [] => false
  | a :: as, b :: bs => a == b && isPrefixL as bs

/-- `pat` occurs somewhere inside `l`; models `String.prototype.includes`. -/
def containsSubL (pat : List Char) : List Char → Bool
  | [] => isPrefixL pat []
  | c :: rest => isPrefixL pat (c :: rest) || containsSubL pat rest

/-- `s.includes(pat)`. -/
def containsSub (s pat : String) : Bool := containsSubL pat.data s.data

/-- Replace the first occurrence of `pat` in `l` by `repl`; models
`String.prototype.replace` with a string pattern (first match only). -/
def replaceFirstL (pat repl : List Char) : List Char → List Char
  | [] => []
  | c :: rest =>
    if isPrefixL pat (c :: rest) then repl ++ (c :: rest).drop pat.length
    else c :: replaceFirstL pat repl rest

/-- `s.replace(pat, repl)` for a string pattern. -/
def replaceFirst (s pat repl : String) : String :=
  String.mk (replaceFirstL pat.data repl.data s.data)

/-- Split a character list on a separator character, keeping empty pieces,
as `String.prototype.split` does. -/
def splitOnCharAux (sep : Char) : List Char → List Char → List (List Char)
  | [], acc => [acc.reverse]
  | c :: rest, acc =>
    if c == sep then acc.reverse :: splitOnCharAux sep rest []
    else splitOnCharAux sep rest (c :: acc)

/-- `url.split('?')[0]`: the part of the string before the first `?`
(the whole string when there is none).  This is the identity URL used
for deduplication. -/
def stripQuery (s : String) : String := String.mk (s.data.takeWhile (fun c => !(c == '?')))

/-- The characters after the last `/` (the whole string when there is
none), as computed by `url.substring(url.lastIndexOf('/') + 1)`. -/
def afterLastSlashL (l : List Char) : List Char :=
  (l.reverse.takeWhile (fun c => !(c == '/'))).reverse

/-- `suf` is a suffix of `l`. -/
def isSuffixL (suf l : List Char) : Bool := isPrefixL suf.reverse l.reverse

/-! ## Filename resolver (`determineFilename`, src/content.js lines 52-96)
and its helpers -/

/-- Test against the canonical UUID regex
`^[0-9a-f]{8}-[0-9a-f]{4}-[0-9a-f]{4}-[0-9a-f]{4}-[0-9a-f]{12}$` with the
case-insensitive flag: 36 characters, dashes at offsets 8, 13, 18, 23,
hex digits everywhere else. -/
def uuidCheck : Nat → List Char → Bool
  | 36, [] => true
  | i, c :: cs =>
    (if i = 8 ∨ i = 13 ∨ i = 18 ∨ i = 23 then c == '-' else isHexChar c) && uuidCheck (i + 1) cs
  | _, _ => false

/-- `uuidRe.test(seg)` from `determineFilename`. -/
def isUuidSeg (s : String) : Bool := uuidCheck 0 s.data

/-- The match of the extension regex `/(\.[a-zA-Z0-9]{1,5})$/` on `s`:
a dot followed by one to five alphanumerics at the end of the string.
Because nothing after the dot may be another dot, the matched dot is
necessarily the last dot of the string. -/
def lastExt (s : String) : Option String :=
  let after := (s.data.reverse.takeWhile (fun c => !(c == '.'))).reverse
  if s.data.any (fun c => c == '.') && !after.isEmpty
      && decide (after.length ≤ 5) && after.all isAlnumChar
  then some (String.mk ('.' :: after)) else none

/-- `parsed.pathname.split('/').filter(Boolean)`: the non-empty path
segments. -/
def pathSegments (pathname : String) : List String :=
  ((splitOnCharAux '/' pathname.data []).map String.mk).filter (fun s => !s.data.isEmpty)

/-- `segments.length ? segments[segments.length - 1] : ''`. -/
def lastSegment (segs : List String) : String := (segs.getLast?).getD ""

/-- The backward scan `for (let i = segments.length - 1; i >= 0; i--)`
returning the first segment (from the end) that matches the UUID regex. -/
def uuidScan (segs : List String) : Option String := segs.reverse.find? isUuidSeg

/-- `isVideo ? '.mp4' : '.png'`. -/
def defaultExt (isVideo : Bool) : String := if isVideo then ".mp4" else ".png"

/-- Extension adopted next to a UUID segment: the last segment's own
extension when the regex matches it, the default otherwise. -/
def extFor (last : String) (isVideo : Bool) : String :=
  match lastExt last with
  | some e => e
  | none => defaultExt isVideo

/-- The timestamped last-resort name
`` `${isVideo ? 'video' : 'image'}_${Date.now()}${ext}` ``; the wall
clock `Date.now()` is the explicit parameter `now`. -/
def tsName (isVideo : Bool) (now : Nat) : String :=
  (if isVideo then "video" else "image") ++ "_" ++ Nat.repr now ++ defaultExt isVideo

/-- JS truthiness of `fallbackBase` (a string or null/undefined): truthy
exactly when present and non-empty. -/
def jsTruthy : Option String → Bool
  | none => false
  | some s => !s.data.isEmpty

/-- The branch of `determineFilename` reached when no UUID segment was
found: last segment's extension, then `fallbackBase`, then a non-`content`
last segment, then the timestamped fallback. -/
def resolveNoUuid (last : String) (fallbackBase : Option String) (isVideo : Bool)
    (now : Nat) : String :=
  if (lastExt last).isSome then last
  else if jsTruthy fallbackBase then fallbackBase.getD "" ++ defaultExt isVideo
  else if ¬ last = "" ∧ ¬ lowerStr last = "content" then last ++ defaultExt isVideo
  else tsName isVideo now

/-- Body of `determineFilename` once the URL parsed, with `pathname` the
parsed path: scan for a UUID segment from the end, else defer to
`resolveNoUuid`. -/
def resolveFromPath (pathname : String) (fallbackBase : Option String) (isVideo : Bool)
    (now : Nat) : String :=
  match uuidScan (pathSegments pathname) with
  | some seg => seg ++ extFor (lastSegment (pathSegments pathname)) isVideo
  | none => resolveNoUuid (lastSegment (pathSegments pathname)) fallbackBase isVideo now

/-- Model of the platform URL parser `new URL(url)`, reduced to what
`determineFilename` consumes: the pathname.  A URL parses when it has a
non-empty scheme before `://` and a non-empty host; the pathname runs
from the first `/` after the host up to the first `?` or `#`.  `none`
models the `TypeError` thrown on an unparsable URL. -/
def splitScheme : List Char → Option (List Char × List Char)
  | [] => none
  | ':' :: '/' :: '/' :: rest => some ([], rest)
  | c :: rest =>
    match splitScheme rest with
    | some (a, b) => some (c :: a, b)
    | none => none

/-- `new URL(url).pathname`, via `splitScheme`; see its doc comment. -/
def parseURL (url : String) : Option String :=
  match splitScheme url.data with
  | none => none
  | some (scheme, rest) =>
    if scheme.isEmpty then none
    else
      let host := rest.takeWhile (fun c => !(c == '/') && !(c == '?') && !(c == '#'))
      if host.isEmpty then none
      else some (String.mk ((rest.drop host.length).takeWhile
                    (fun c => !(c == '?') && !(c == '#'))))

/-- `determineFilename(url, fallbackBase, isVideo)` from src/content.js
lines 52-96.  `now` is the wall clock (`Date.now()`), made explicit so
that the timestamped fallbacks are expressible; the `catch` branch of the
source (URL parse failure) is the `none` case of `parseURL`. -/
def determineFilename (url : String) (fallbackBase : Option String) (isVideo : Bool)
    (now : Nat) : String :=
  match parseURL url with
  | none => tsName isVideo now
  | some pathname => resolveFromPath pathname fallbackBase isVideo now

/-- The resolutions of `determineFilename` that do not reach the
timestamped fallback: the URL parses and a UUID segment, a last-segment
extension, a truthy fallback base or a usable last segment provides the
name.  On these, and only these, the result does not mention `now`. -/
def timestampFreePath (pathname : String) (fallbackBase : Option String) : Bool :=
  (uuidScan (pathSegments pathname)).isSome
  || (lastExt (lastSegment (pathSegments pathname))).isSome
  || jsTruthy fallbackBase
  || (decide (¬ lastSegment (pathSegments pathname) = "")
      && decide (¬ lowerStr (lastSegment (pathSegments pathname)) = "content"))

/-- `timestampFreePath` after the parse step; `false` on unparsable URLs. -/
def timestampFree (url : String) (fallbackBase : Option String) : Bool :=
  match parseURL url with
  | none => false
  | some pathname => timestampFreePath pathname fallbackBase

/-! ## Media collector (`collectMediaFromVisibleCards`, src/content.js
lines 245-296) and its helpers -/

/-- A media item as constructed by the collector: the full asset URL
(query retained, used for the actual fetch) and the resolved filename. -/
structure MediaItem where
  url : String
  filename : String
deriving DecidableEq

/-- One card-like DOM element (`SELECTORS.CARD`), reduced to what the
collector reads from it: the `src` of its generated-image element and the
`src` of its video element, each absent when `querySelector` finds no such
element.  `some ""` models an element whose `src` is the empty string
(falsy in the JS guards). -/
structure Card where
  imgSrc : Option String
  videoSrc : Option String
deriving DecidableEq

/-- Membership in the caller-owned seen-set (`Set.prototype.has`);
the set is modelled as the list of URLs added so far. -/
def seenHas (seen : List String) (u : String) : Bool :=
  match seen with
  | [] => false
  | v :: rest => if v = u then true else seenHas rest u

/-- `URL_PATTERNS.IMAGE`: the hostname/domain allow-list applied to image
URLs. -/
def URL_PATTERNS_IMAGE : List String := ["imagine-public.x.ai", "grok.com"]

/-- `isValidUrl(url, patterns)`: some pattern occurs inside the URL. -/
def isValidUrl (url : String) (patterns : List String) : Bool :=
  patterns.any (fun p => containsSub url p)

/-- `extractBaseName(url)`: the leaf segment of the URL with a trailing
`.png`/`.jpg`/`.jpeg` extension (case-insensitive) removed. -/
def extractBaseName (url : String) : String :=
  let leaf := afterLastSlashL url.data
  if isSuffixL ".png".data (leaf.map lowerChar) then String.mk (leaf.take (leaf.length - 4))
  else if isSuffixL ".jpg".data (leaf.map lowerChar) then String.mk (leaf.take (leaf.length - 4))
  else if isSuffixL ".jpeg".data (leaf.map lowerChar) then String.mk (leaf.take (leaf.length - 5))
  else String.mk leaf

/-- `filename.replace(/(\.[^.]+)$/, '-HD$1')`: insert `-HD` before the
final extension (the last dot with at least one following character);
unchanged when the regex does not match. -/
def insertHD (filename : String) : String :=
  let after := filename.data.reverse.takeWhile (fun c => !(c == '.'))
  if filename.data.any (fun c => c == '.') && !after.isEmpty then
    String.mk (filename.data.take (filename.data.length - (after.length + 1))
      ++ "-HD.".data ++ after.reverse)
  else filename

/-- The image half of the per-card loop body (src/content.js lines
251-264): when the card has an image element with a truthy `src`, derive
the identity URL, remember the post's base name for the video half, and —
when the requested kind includes images, the identity URL is unseen and
the URL passes the hostname allow-list — append the item and mark the URL
seen.  Returns the updated media list, seen-set and the `imageName`
local. -/
def imageBranch (ty : String) (now : Nat) (card : Card) (media : List MediaItem)
    (seen : List String) : List MediaItem × List String × Option String :=
  match card.imgSrc with
  | none => (media, seen, none)
  | some src =>
    if src.data.isEmpty then (media, seen, none)
    else if (ty = "saveImages" ∨ ty = "saveBoth")
        ∧ seenHas seen (stripQuery src) = false
        ∧ isValidUrl (stripQuery src) URL_PATTERNS_IMAGE = true then
      (media ++ [⟨src, determineFilename (stripQuery src) none false now⟩],
       stripQuery src :: seen, some (extractBaseName (stripQuery src)))
    else (media, seen, some (extractBaseName (stripQuery src)))

/-- The video filename choice (src/content.js line 275): the paired
image's base name when that base name is truthy and matches the UUID
shape, else `determineFilename` with the base name (`''` demoted to null
by `imageName || null`) as fallback and `isVideo = true`. -/
def videoFilename (now : Nat) (url : String) (imageName : Option String) : String :=
  match imageName with
  | none => determineFilename url none true now
  | some nm =>
    if (¬ nm.data.isEmpty = true) ∧ isUuidSeg nm = true then nm ++ ".mp4"
    else determineFilename url (if nm.data.isEmpty then none else some nm) true now

/-- `video.src.replace('generated_video.mp4', 'generated_video_hd.mp4')`. -/
def hdUrlOf (vsrc : String) : String :=
  replaceFirst vsrc "generated_video.mp4" "generated_video_hd.mp4"

/-- The HD-variant probe (src/content.js lines 279-291): when the
identity URL matches the standard-quality naming convention, synthesize
the HD URL; if it is unseen and the asynchronous loadability probe
(`checkVideoExists`, modelled by the oracle `hdOk`) succeeds, mark it
seen and append the HD item. -/
def hdStep (hdOk : String → Bool) (vsrc filename : String) (media : List MediaItem)
    (seen : List String) : List MediaItem × List String :=
  if containsSub (stripQuery vsrc) "generated_video.mp4" = true then
    if seenHas seen (hdUrlOf vsrc) = true then (media, seen)
    else if hdOk (hdUrlOf vsrc) = true then
      (media ++ [⟨hdUrlOf vsrc, insertHD filename⟩], hdUrlOf vsrc :: seen)
    else (media, seen)
  else (media, seen)

/-- The video half of the per-card loop body (src/content.js lines
266-294): only when the requested kind includes videos; the video item is
recorded whenever the element exists, its `src` is truthy and the
identity URL is unseen — no hostname validation is applied — then the HD
probe runs. -/
def videoBranch (ty : String) (now : Nat) (hdOk : String → Bool) (card : Card)
    (media : List MediaItem) (seen : List String) (imageName : Option String) :
    List MediaItem × List String :=
  if ty = "saveVideos" ∨ ty = "saveBoth" then
    match card.videoSrc with
    | none => (media, seen)
    | some vsrc =>
      if vsrc.data.isEmpty then (media, seen)
      else if seenHas seen (stripQuery vsrc) = true then (media, seen)
      else
        hdStep hdOk vsrc (videoFilename now (stripQuery vsrc) imageName)
          (media ++ [⟨vsrc, videoFilename now (stripQuery vsrc) imageName⟩])
          (stripQuery vsrc :: seen)
  else (media, seen)

/-- One iteration of the `for (const card of cards)` loop: image half
then video half, threading the `imageName` local between them. -/
def collectCard (ty : String) (now : Nat) (hdOk : String → Bool)
    (acc : List MediaItem × List String) (card : Card) : List MediaItem × List String :=
  match imageBranch ty now card acc.1 acc.2 with
  | (m1, s1, imageName) => videoBranch ty now hdOk card m1 s1 imageName

/-- `collectMediaFromVisibleCards(type, media, seen)`: fold the per-card
body over the cards currently in the document, mutating the caller-owned
`media` list and `seen` set (returned here as the new pair). -/
def collectMediaFromVisibleCards (ty : String) (now : Nat) (hdOk : String → Bool)
    (cards : List Card) (media : List MediaItem) (seen : List String) :
    List MediaItem × List String :=
  cards.foldl (collectCard ty now hdOk) (media, seen)

/-! ## Analysis definitions for the collector: the items and identity
URLs a card contributes on a fresh pass -/

/-- The identity (query-stripped) URLs a card exposes: its image URL then
its video URL, skipping absent or empty sources. -/
def cardIdUrls (c : Card) : List String :=
  (match c.imgSrc with
   | some s => if s.data.isEmpty then [] else [stripQuery s]
   | none => []) ++
  (match c.videoSrc with
   | some v => if v.data.isEmpty then [] else [stripQuery v]
   | none => [])

/-- The `imageName` local the image half leaves for the video half. -/
def imageNameOf (c : Card) : Option String :=
  match c.imgSrc with
  | some s => if s.data.isEmpty then none else some (extractBaseName (stripQuery s))
  | none => none

/-- The image item a card contributes on a fresh `saveBoth` pass (one,
given a qualifying image). -/
def cardImgItems (now : Nat) (c : Card) : List MediaItem :=
  match c.imgSrc with
  | some s =>
    if s.data.isEmpty then []
    else [⟨s, determineFilename (stripQuery s) none false now⟩]
  | none => []

/-- The video item a card contributes on a fresh `saveBoth` pass (one,
given a truthy video source). -/
def cardVidItems (now : Nat) (c : Card) : List MediaItem :=
  match c.videoSrc with
  | some v =>
    if v.data.isEmpty then []
    else [⟨v, videoFilename now (stripQuery v) (imageNameOf c)⟩]
  | none => []

/-- All items a card contributes on a fresh `saveBoth` pass. -/
def cardItems (now : Nat) (c : Card) : List MediaItem :=
  cardImgItems now c ++ cardVidItems now c

/-- The card has an image element with truthy `src` passing the hostname
allow-list (the claim's "qualifying image"). -/
def cardQualifies (c : Card) : Bool :=
  match c.imgSrc with
  | some s => !s.data.isEmpty && isValidUrl (stripQuery s) URL_PATTERNS_IMAGE
  | none => false

/-- The card's video (when present) does not match the standard-quality
naming convention, so the HD probe is not consulted for it. -/
def hdFreeCard (c : Card) : Bool :=
  match c.videoSrc with
  | some v => !(containsSub (stripQuery v) "generated_video.mp4")
  | none => true

/-- The card has a video element with truthy `src`. -/
def hasVideoB (c : Card) : Bool := jsTruthy c.videoSrc

/-- Mark a batch of URLs seen, first to last (`Set.add` in loop order). -/
def consAll (us seen : List String) : List String := us.foldl (fun s u => u :: s) seen

/-! ## Incremental scroll driver (`scrollAndCollectMedia`, src/content.js
lines 168-237).  The page is the environment: `dom k` is the card list
the document exposes when the loop body runs for the k-th time (the
final collection pass observes `dom n` for `n` the number of loop
iterations executed).  The fixed settle delays only suspend execution,
so they do not appear; the scroll position is tracked so that the final
restore-to-top is visible.  The loop runs on explicit fuel: the source
loop has no a-priori bound, and the termination claim is exactly that
suitable fuel exists once the card count stabilizes. -/

/-- The state in which the scroll loop exited: how many iterations ran,
the accumulated media and seen-set, and the scroll position left behind. -/
structure LoopEnd where
  iters : Nat
  media : List MediaItem
  seen : List String
  scrollTop : Nat
deriving DecidableEq

/-- The `while (unchangedCount < maxUnchangedAttempts)` loop: collect
from the visible cards, compare the card count with `lastCardCount`
(increment the stability counter on equality, else reset it and remember
the new count), scroll down one viewport height, repeat.  `none` means
the fuel ran out before the loop exited. -/
def scrollLoop (ty : String) (now : Nat) (hdOk : String → Bool)
    (dom : Nat → List Card) (vh : Nat) :
    Nat → Nat → Nat → Nat → Nat → List MediaItem → List String → Option LoopEnd
  | 0, k, st, _last, unchanged, media, seen =>
    if unchanged < 5 then none else some ⟨k, media, seen, st⟩
  | fuel + 1, k, st, last, unchanged, media, seen =>
    if unchanged < 5 then
      if (dom k).length = last then
        scrollLoop ty now hdOk dom vh fuel (k + 1) (st + vh) last (unchanged + 1)
          (collectMediaFromVisibleCards ty now hdOk (dom k) media seen).1
          (collectMediaFromVisibleCards ty now hdOk (dom k) media seen).2
      else
        scrollLoop ty now hdOk dom vh fuel (k + 1) (st + vh) ((dom k).length) 0
          (collectMediaFromVisibleCards ty now hdOk (dom k) media seen).1
          (collectMediaFromVisibleCards ty now hdOk (dom k) media seen).2
    else some ⟨k, media, seen, st⟩

/-- What `scrollAndCollectMedia` returns: the accumulated media list and
the scroll position it leaves (`scrollContainer.scrollTop = 0`). -/
structure ScrollResult where
  media : List MediaItem
  scrollTop : Nat
deriving DecidableEq

/-- `scrollAndCollectMedia(type)`: run the scroll loop from a fresh
state (`media = []`, `seen = ∅`, `lastCardCount = 0`,
`unchangedCount = 0`), then one final collection pass, then restore the
scroll position to the top and return the accumulated list. -/
def scrollAndCollectMedia (ty : String) (now : Nat) (hdOk : String → Bool)
    (dom : Nat → List Card) (vh : Nat) (fuel : Nat) : Option ScrollResult :=
  match scrollLoop ty now hdOk dom vh fuel 0 0 0 0 [] [] with
  | none => none
  | some e =>
    some ⟨(collectMediaFromVisibleCards ty now hdOk (dom e.iters) e.media e.seen).1, 0⟩

/-! ## Unfavorite sequencer (`handleUnsave`, src/content.js lines
342-384) -/

/-- One rendered list item (`SELECTORS.LIST_ITEM`) as the sequencer
reads it: whether `querySelector` finds a video element, an image
element, and — when both are present — its unsave button, identified
here by an opaque id. -/
structure UnsaveItem where
  hasVideo : Bool
  hasImage : Bool
  unsaveButton : Option Nat
deriving DecidableEq

/-- One scheduled click: the `setTimeout` delay in milliseconds and the
captured button. -/
structure ClickTask where
  delay : Nat
  button : Nat
deriving DecidableEq

/-- Outcome of `handleUnsave`: an early return for a non-`unsaveBoth`
kind, the "No items found with both video and image." alert, or the
batch of scheduled clicks. -/
inductive UnsaveResult where
  | noop : UnsaveResult
  | nothingToDo : UnsaveResult
  | scheduled : List ClickTask → UnsaveResult
deriving DecidableEq

/-- `TIMING.UNFAVORITE_DELAY` as read by `handleUnsave`.  The `TIMING`
constant of src/content.js defines only `NAVIGATION_DELAY: 500`, so this
property access yields `undefined` — modelled as `none`. -/
def TIMING_UNFAVORITE_DELAY : Option Nat := none

/-- The delay passed to `setTimeout` for the click at `index`:
`index * TIMING.UNFAVORITE_DELAY`.  With the constant `undefined` the
JS product is `NaN`, and `setTimeout` coerces a `NaN` timeout to `0`,
so every click is scheduled immediately. -/
def unfavDelay (index : Nat) : Nat :=
  match TIMING_UNFAVORITE_DELAY with
  | some d => index * d
  | none => 0

/-- Number the captured buttons and attach each one's `setTimeout`
delay, in capture order. -/
def clickSchedule (index : Nat) : List Nat → List ClickTask
  | [] => []
  | b :: rest => ⟨unfavDelay index, b⟩ :: clickSchedule (index + 1) rest

/-- `handleUnsave(type)`: a no-op unless `type === 'unsaveBoth'`;
otherwise capture — before any click fires — the unsave buttons of all
items having both a video and an image, report "nothing to do" when none
were captured, and else schedule one click per captured button at its
`setTimeout` delay. -/
def handleUnsave (ty : String) (items : List UnsaveItem) : UnsaveResult :=
  if ¬ ty = "unsaveBoth" then .noop
  else
    match items.filterMap
        (fun it => if it.hasVideo && it.hasImage then it.unsaveButton else none) with
    | [] => .nothingToDo
    | b :: bs => .scheduled (clickSchedule 0 (b :: bs))

/-- Firing the scheduled clicks: each callback wraps its `btn.click()`
in try/catch (`fails` tells which buttons throw), so every scheduled
click is attempted and an individual failure never aborts the rest;
`true` marks a click that succeeded. -/
def runClicks (fails : Nat → Bool) (tasks : List ClickTask) : List Bool :=
  tasks.map (fun t => !fails t.button)

/-! ## Download orchestrator (src/background.js).  `chrome.storage.local`
is modelled by `Store`, a record of the two keys this extension writes;
each is `Option`-valued because the platform store distinguishes absent
keys.  The JS object `downloadProgress` keyed by download id is an
association list in insertion order. -/

/-- Per-item terminal status recorded in `downloadProgress` (`pending`
is the absence of the key). -/
inductive DStatus where
  | complete : DStatus
  | failed : DStatus
deriving DecidableEq

/-- The persisted `downloadProgress` object. -/
abbrev ProgressMap : Type := List (Nat × DStatus)

/-- The persisted store: the two keys the background worker writes. -/
structure Store where
  totalDownloads : Option Nat
  downloadProgress : Option ProgressMap
deriving DecidableEq

/-- A store with neither key set (fresh profile). -/
def emptyStore : Store := ⟨none, none⟩

/-- One element of the `media` array of a `startDownloads` request.  The
fields are `Option`s because a malformed item may lack them; `some ""`
models a present-but-empty (falsy) field. -/
structure BItem where
  url : Option String
  filename : Option String
deriving DecidableEq

/-- `DOWNLOAD_CONFIG.RATE_LIMIT_MS`. -/
def RATE_LIMIT_MS : Nat := 1000

/-- `DOWNLOAD_CONFIG.FOLDER`. -/
def DOWNLOAD_FOLDER : String := "grok-imagine"

/-- The `media.forEach((item, index) => setTimeout(..., index *
DOWNLOAD_CONFIG.RATE_LIMIT_MS))` enqueue loop: each item paired with its
fire-and-forget delay, in input order, starting at `index`. -/
def withDelays (index : Nat) : List BItem → List (Nat × BItem)
  | [] => []
  | it :: rest => (index * RATE_LIMIT_MS, it) :: withDelays (index + 1) rest

/-- `handleDownloads(media)` (src/background.js lines 32-49): reject —
without touching the store — when `media` is not an array (`none`) or is
empty; otherwise persist `{totalDownloads: media.length,
downloadProgress: {}}`, overwriting prior run state, and schedule every
item.  The returned schedule is what the fire-and-forget `setTimeout`
calls will run; the function itself returns as soon as they are
scheduled, before any download finishes. -/
def handleDownloads (media : Option (List BItem)) (st : Store) :
    Store × Except String (List (Nat × BItem)) :=
  match media with
  | none => (st, .error "No media provided for download")
  | some l =>
    if l.isEmpty then (st, .error "No media provided for download")
    else
      ({ totalDownloads := some l.length, downloadProgress := some [] },
       .ok (withDelays 0 l))

/-- The `chrome.downloads.download` call made for one item. -/
structure DownloadCall where
  url : String
  filename : String
  saveAs : Bool
deriving DecidableEq

/-- `downloadFile(item)` (src/background.js lines 55-70): items missing
a truthy `url` or `filename` are logged and skipped (`none`) without
signalling an error; well-formed items are handed to the platform with
the fixed destination subfolder and `saveAs: false`. -/
def downloadFile (item : BItem) : Option DownloadCall :=
  if jsTruthy item.url && jsTruthy item.filename then
    some ⟨item.url.getD "", DOWNLOAD_FOLDER ++ "/" ++ (item.filename.getD ""), false⟩
  else none

/-- A `startDownloads` request as received by the background message
listener. -/
structure Request where
  action : String
  media : Option (List BItem)
deriving DecidableEq

/-- The response sent back over the message channel. -/
structure Response where
  success : Bool
  error : Option String
deriving DecidableEq

/-- The background `chrome.runtime.onMessage` listener (src/background.js
lines 15-25): on `startDownloads`, run `handleDownloads` and answer
`{success: true}` on resolution — produced together with the schedule,
before any download runs — or `{success: false, error}` on rejection.
Other actions get no response (`none`). -/
def onMessage (req : Request) (st : Store) :
    Store × Option Response × List (Nat × BItem) :=
  if req.action = "startDownloads" then
    match handleDownloads req.media st with
    | (st2, .ok sched) => (st2, some ⟨true, none⟩, sched)
    | (st2, .error e) => (st2, some ⟨false, some e⟩, [])
  else (st, none, [])

/-- One `chrome.downloads.onChanged` delta, reduced to what the listener
reads: the download id and `delta.state.current` when a state change is
present. -/
structure Delta where
  id : Nat
  state : Option String
deriving DecidableEq

/-- JS object update `progress[id] = v`: overwrite in place, append when
absent. -/
def setKey (id : Nat) (v : DStatus) : ProgressMap → ProgressMap
  | [] => [(id, v)]
  | (k, w) :: rest => if k = id then (k, v) :: rest else (k, w) :: setKey id v rest

/-- Lookup in the progress object; `none` is the pending state. -/
def getKey (id : Nat) : ProgressMap → Option DStatus
  | [] => none
  | (k, w) :: rest => if k = id then some w else getKey id rest

/-- The progress-object update performed by the `onChanged` listener for
one delta with a state change: `'complete'` sets the id's entry to
`complete`, `'interrupted'` sets it to `failed`, every other transition
leaves the object unchanged. -/
def applyProgress (d : Delta) (p : ProgressMap) : ProgressMap :=
  match d.state with
  | none => p
  | some cur =>
    if cur = "complete" then setKey d.id .complete p
    else if cur = "interrupted" then setKey d.id .failed p
    else p

/-- The `chrome.downloads.onChanged` listener (src/background.js lines
75-89): ignore deltas without a state change; otherwise read
`downloadProgress` (defaulting to `{}`), update it via `applyProgress`,
and write it back. -/
def onDownloadChanged (d : Delta) (st : Store) : Store :=
  match d.state with
  | none => st
  | some _ =>
    { st with downloadProgress := some (applyProgress d (st.downloadProgress.getD [])) }

/-- The store right after `handleDownloads` accepted a run of `n`
items. -/
def initStore (n : Nat) : Store := ⟨some n, some []⟩

/-- The persisted state after the platform delivered a sequence of
state-change events during a run. -/
def runEvents (events : List Delta) (st : Store) : Store :=
  events.foldl (fun s d => onDownloadChanged d s) st

/-- The key set of the persisted progress object. -/
def progressKeys (p : ProgressMap) : List Nat := p.map Prod.fst

/-! ## Theorems about the filename resolver -/

theorem determineFilename_of_parse {url pathname : String} (fb : Option String)
    (iv : Bool) (now : Nat) (hp : parseURL url = some pathname) :
    determineFilename url fb iv now = resolveFromPath pathname fb iv now := by
  unfold determineFilename
  rw [hp]

/-- Claim C1: whenever the URL parses and its path holds at least one
segment of the canonical UUID shape, `determineFilename` returns the last
such segment (scanning the path from the end backward) concatenated with
the last path segment's extension when that segment ends in a dot followed
by one to five alphanumerics, and with `.mp4` (video) / `.png` (image)
otherwise.  Instantiated by its witness at the spec's example URL
`.../abcdef01-2345-6789-abcd-ef0123456789/content` with `isVideo = false`,
yielding `abcdef01-2345-6789-abcd-ef0123456789.png`. -/
theorem c1_uuid_filename {url pathname u : String} (fb : Option String)
    (iv : Bool) (now : Nat)
    (hp : parseURL url = some pathname)
    (hu : uuidScan (pathSegments pathname) = some u) :
    determineFilename url fb iv now = u ++ extFor (lastSegment (pathSegments pathname)) iv := by
  rw [determineFilename_of_parse fb iv now hp]
  unfold resolveFromPath
  rw [hu]

theorem c1_uuid_filename_witness :
    parseURL "https://assets.grok.com/users/abcdef01-2345-6789-abcd-ef0123456789/content"
        = some "/users/abcdef01-2345-6789-abcd-ef0123456789/content"
    ∧ uuidScan (pathSegments "/users/abcdef01-2345-6789-abcd-ef0123456789/content")
        = some "abcdef01-2345-6789-abcd-ef0123456789"
    ∧ determineFilename
        "https://assets.grok.com/users/abcdef01-2345-6789-abcd-ef0123456789/content"
        none false 0
      = "abcdef01-2345-6789-abcd-ef0123456789"
          ++ extFor (lastSegment (pathSegments
                "/users/abcdef01-2345-6789-abcd-ef0123456789/content")) false :=
  ⟨by decide, by decide, c1_uuid_filename none false 0 (by decide) (by decide)⟩

/-- Claim C2 counterexample: `determineFilename` is not independent of the
invocation time.  On an unparsable URL it embeds `Date.now()` in the
fallback name, so two invocations with identical arguments at times 0 and
1 differ (`image_0.png` versus `image_1.png`). -/
theorem c2_counterexample :
    ¬ determineFilename "notaurl" none false 0 = determineFilename "notaurl" none false 1 := by
  decide

/-- Claim C2 (amended): `determineFilename` is a pure total function of
its arguments together with the current time, hence deterministic and
side-effect-free at any fixed instant and never raising; moreover its
result is independent of the time whenever resolution does not reach the
timestamped-fallback branch (`timestampFree`).  On the fallback branch —
unparsable URLs included — the name embeds the clock, so invocations at
different times may differ there. -/
theorem timestampFree_of_parse {url pathname : String} (fb : Option String)
    (hp : parseURL url = some pathname) :
    timestampFree url fb = timestampFreePath pathname fb := by
  unfold timestampFree
  rw [hp]

theorem c2_deterministic (url : String) (fb : Option String) (iv : Bool)
    (t1 t2 : Nat) (h : timestampFree url fb = true) :
    determineFilename url fb iv t1 = determineFilename url fb iv t2 := by
  cases hp : parseURL url with
  | none =>
    exfalso
    unfold timestampFree at h
    rw [hp] at h
    exact Bool.false_ne_true h
  | some pathname =>
    rw [timestampFree_of_parse fb hp] at h
    rw [determineFilename_of_parse fb iv t1 hp, determineFilename_of_parse fb iv t2 hp]
    unfold timestampFreePath at h
    unfold resolveFromPath
    cases hu : uuidScan (pathSegments pathname) with
    | some seg => rfl
    | none =>
      rw [hu] at h
      simp only [Option.isSome_none, Bool.false_or] at h
      unfold resolveNoUuid
      cases he : (lastExt (lastSegment (pathSegments pathname))).isSome with
      | true => simp [he]
      | false =>
        rw [he] at h
        simp only [Bool.false_or] at h
        cases hfb : jsTruthy fb with
        | true => simp [hfb]
        | false =>
          rw [hfb] at h
          simp only [Bool.false_or, Bool.and_eq_true, decide_eq_true_eq] at h
          rw [if_neg (by simp [he]), if_neg (by simp [hfb]),
            if_pos h, if_neg (by simp [he]), if_neg (by simp [hfb]), if_pos h]

theorem c2_deterministic_witness :
    timestampFree "https://grok.com/p/img1.png?x=1" none = true
    ∧ determineFilename "https://grok.com/p/img1.png?x=1" none false 3
        = determineFilename "https://grok.com/p/img1.png?x=1" none false 4 :=
  ⟨by decide, c2_deterministic _ none false 3 4 (by decide)⟩

/-! ## Theorems about the media collector -/

theorem seenHas_iff (seen : List String) (u : String) :
    seenHas seen u = true ↔ u ∈ seen := by
  induction seen with
  | nil => simp [seenHas]
  | cons v rest ih =>
    simp only [seenHas, List.mem_cons]
    by_cases h : v = u
    · simp [h]
    · simp only [if_neg h, ih]
      constructor
      · exact fun hm => Or.inr hm
      · rintro (hh | hm)
        · exact absurd hh.symm h
        · exact hm

theorem seenHas_false_iff (seen : List String) (u : String) :
    seenHas seen u = false ↔ ¬ u ∈ seen := by
  rw [← seenHas_iff seen u]
  cases seenHas seen u <;> simp

theorem consAll_append (us vs s : List String) :
    consAll (us ++ vs) s = consAll vs (consAll us s) :=
  List.foldl_append _ _ _ _

theorem seenHas_consAll (us s : List String) (u : String) :
    seenHas (consAll us s) u = true ↔ u ∈ us ∨ seenHas s u = true := by
  induction us generalizing s with
  | nil => simp [consAll]
  | cons a as ih =>
    show seenHas (consAll as (a :: s)) u = true ↔ _
    rw [ih]
    simp only [seenHas, List.mem_cons]
    by_cases h : a = u
    · simp [h]
    · simp only [if_neg h, or_assoc]
      constructor
      · rintro (hm | hs)
        · exact Or.inr (Or.inl hm)
        · exact Or.inr (Or.inr hs)
      · rintro (hh | hm | hs)
        · exact absurd hh.symm h
        · exact Or.inl hm
        · exact Or.inr hs

theorem seenHas_consAll_false (us s : List String) (u : String) :
    seenHas (consAll us s) u = false ↔ ¬ u ∈ us ∧ seenHas s u = false := by
  simp only [Bool.eq_false_iff, Ne]
  rw [seenHas_consAll]
  tauto

theorem collectCard_fresh (now : Nat) (hdOk : String → Bool) (c : Card)
    (media : List MediaItem) (seen : List String)
    (hq : cardQualifies c = true) (hhd : hdFreeCard c = true)
    (hnd : (cardIdUrls c).Nodup)
    (hfresh : ∀ u ∈ cardIdUrls c, seenHas seen u = false) :
    collectCard "saveBoth" now hdOk (media, seen) c
      = (media ++ cardItems now c, consAll (cardIdUrls c) seen) := by
  obtain ⟨imgSrc, videoSrc⟩ := c
  cases imgSrc with
  | none => exact absurd hq (by simp [cardQualifies])
  | some s =>
    simp only [cardQualifies, Bool.and_eq_true, Bool.not_eq_true'] at hq
    obtain ⟨hse, hvalid⟩ := hq
    have hsfresh : seenHas seen (stripQuery s) = false := by
      apply hfresh
      simp [cardIdUrls, hse]
    have himg : imageBranch "saveBoth" now ⟨some s, videoSrc⟩ media seen
        = (media ++ [⟨s, determineFilename (stripQuery s) none false now⟩],
           stripQuery s :: seen, some (extractBaseName (stripQuery s))) := by
      simp [imageBranch, hse, hsfresh, hvalid]
    cases videoSrc with
    | none =>
      simp [collectCard, himg, videoBranch, cardItems, cardImgItems, cardVidItems,
        cardIdUrls, consAll, hse]
    | some v =>
      cases hve : v.data.isEmpty with
      | true =>
        simp [collectCard, himg, videoBranch, cardItems, cardImgItems, cardVidItems,
          cardIdUrls, consAll, hse, hve]
      | false =>
        have hvfresh : seenHas seen (stripQuery v) = false := by
          apply hfresh
          simp [cardIdUrls, hse, hve]
        have hids : cardIdUrls ⟨some s, some v⟩ = [stripQuery s, stripQuery v] := by
          simp [cardIdUrls, hse, hve]
        have hne : ¬ stripQuery s = stripQuery v := by
          rw [hids] at hnd
          have hni := (List.nodup_cons.mp hnd).1
          simpa using hni
        have hvseen : seenHas (stripQuery s :: seen) (stripQuery v) = false := by
          simp only [seenHas]
          rw [if_neg hne]
          exact hvfresh
        have hnohd : containsSub (stripQuery v) "generated_video.mp4" = false := by
          simpa [hdFreeCard, Bool.not_eq_true'] using hhd
        simp [collectCard, himg, videoBranch, hve, hvseen, hdStep, hnohd,
          cardItems, cardImgItems, cardVidItems, cardIdUrls, consAll, hse,
          imageNameOf]

theorem collectCard_seenAll (ty : String) (now : Nat) (hdOk : String → Bool) (c : Card)
    (media : List MediaItem) (seen : List String)
    (hall : ∀ u ∈ cardIdUrls c, seenHas seen u = true) :
    collectCard ty now hdOk (media, seen) c = (media, seen) := by
  obtain ⟨imgSrc, videoSrc⟩ := c
  have himg : imageBranch ty now ⟨imgSrc, videoSrc⟩ media seen
      = (media, seen,
         match imgSrc with
         | some s => if s.data.isEmpty then none else some (extractBaseName (stripQuery s))
         | none => none) := by
    cases imgSrc with
    | none => simp [imageBranch]
    | some s =>
      cases hse : s.data.isEmpty with
      | true => simp [imageBranch, hse]
      | false =>
        have hs : seenHas seen (stripQuery s) = true := by
          apply hall
          simp [cardIdUrls, hse]
        simp [imageBranch, hse, hs]
  have hvid : ∀ nm, videoBranch ty now hdOk ⟨imgSrc, videoSrc⟩ media seen nm
      = (media, seen) := by
    intro nm
    cases videoSrc with
    | none => simp [videoBranch]
    | some v =>
      cases hve : v.data.isEmpty with
      | true => simp [videoBranch, hve]
      | false =>
        have hv : seenHas seen (stripQuery v) = true := by
          apply hall
          cases imgSrc <;> simp [cardIdUrls, hve]
        simp [videoBranch, hve, hv]
  simp [collectCard, himg, hvid]

theorem collect_seenAll (ty : String) (now : Nat) (hdOk : String → Bool)
    (cards : List Card) (m : List MediaItem) (seen : List String)
    (hall : ∀ c ∈ cards, ∀ u ∈ cardIdUrls c, seenHas seen u = true) :
    collectMediaFromVisibleCards ty now hdOk cards m seen = (m, seen) := by
  induction cards generalizing m with
  | nil => rfl
  | cons c cs ih =>
    unfold collectMediaFromVisibleCards at ih ⊢
    simp only [List.foldl_cons]
    rw [collectCard_seenAll ty now hdOk c m seen (hall c (by simp))]
    exact ih m (fun d hd u hu => hall d (by simp [hd]) u hu)

theorem collect_fresh (now : Nat) (hdOk : String → Bool) (cards : List Card)
    (m : List MediaItem) (seen : List String)
    (hq : ∀ c ∈ cards, cardQualifies c = true)
    (hhd : ∀ c ∈ cards, hdFreeCard c = true)
    (hnd : (cards.flatMap cardIdUrls).Nodup)
    (hfresh : ∀ u ∈ cards.flatMap cardIdUrls, seenHas seen u = false) :
    collectMediaFromVisibleCards "saveBoth" now hdOk cards m seen
      = (m ++ cards.flatMap (cardItems now), consAll (cards.flatMap cardIdUrls) seen) := by
  induction cards generalizing m seen with
  | nil => simp [collectMediaFromVisibleCards, consAll]
  | cons c cs ih =>
    rw [List.flatMap_cons] at hnd hfresh
    have hndc : (cardIdUrls c).Nodup := (List.nodup_append.mp hnd).1
    have hdisj : (cardIdUrls c).Disjoint (cs.flatMap cardIdUrls) :=
      (List.nodup_append.mp hnd).2.2
    have hstep := collectCard_fresh now hdOk c m seen (hq c (by simp)) (hhd c (by simp))
      hndc (fun u hu => hfresh u (List.mem_append_left _ hu))
    unfold collectMediaFromVisibleCards at ih ⊢
    simp only [List.foldl_cons]
    rw [hstep]
    rw [ih (m ++ cardItems now c) (consAll (cardIdUrls c) seen)
      (fun d hd => hq d (by simp [hd])) (fun d hd => hhd d (by simp [hd]))
      (List.nodup_append.mp hnd).2.1
      (fun u hu => (seenHas_consAll_false _ _ _).mpr
        ⟨fun hin => hdisj hin hu, hfresh u (List.mem_append_right _ hu)⟩)]
    rw [List.flatMap_cons, List.flatMap_cons, List.append_assoc, consAll_append]

theorem cardImgItems_length (now : Nat) (c : Card) (hq : cardQualifies c = true) :
    (cardImgItems now c).length = 1 := by
  obtain ⟨imgSrc, videoSrc⟩ := c
  cases imgSrc with
  | none => exact absurd hq (by simp [cardQualifies])
  | some s =>
    simp only [cardQualifies, Bool.and_eq_true, Bool.not_eq_true'] at hq
    simp [cardImgItems, hq.1]

theorem cardVidItems_length (now : Nat) (c : Card) :
    (cardVidItems now c).length = if hasVideoB c then 1 else 0 := by
  obtain ⟨imgSrc, videoSrc⟩ := c
  cases videoSrc with
  | none => simp [cardVidItems, hasVideoB, jsTruthy]
  | some v =>
    cases hve : v.data.isEmpty with
    | true => simp [cardVidItems, hasVideoB, jsTruthy, hve]
    | false => simp [cardVidItems, hasVideoB, jsTruthy, hve]

theorem flatMap_imgItems_length (now : Nat) (cards : List Card)
    (hq : ∀ c ∈ cards, cardQualifies c = true) :
    (cards.flatMap (cardImgItems now)).length = cards.length := by
  induction cards with
  | nil => rfl
  | cons c cs ih =>
    rw [List.flatMap_cons, List.length_append, cardImgItems_length now c (hq c (by simp)),
      ih (fun d hd => hq d (by simp [hd]))]
    simp [Nat.add_comm]

theorem flatMap_vidItems_length (now : Nat) (cards : List Card) :
    (cards.flatMap (cardVidItems now)).length = (cards.filter hasVideoB).length := by
  induction cards with
  | nil => rfl
  | cons c cs ih =>
    rw [List.flatMap_cons, List.length_append, cardVidItems_length now c, ih]
    cases h : hasVideoB c <;> simp [List.filter_cons, h, Nat.add_comm]

theorem cardItems_stripped (now : Nat) (c : Card) (hq : cardQualifies c = true) :
    (cardItems now c).map (fun it => stripQuery it.url) = cardIdUrls c := by
  obtain ⟨imgSrc, videoSrc⟩ := c
  cases imgSrc with
  | none => exact absurd hq (by simp [cardQualifies])
  | some s =>
    simp only [cardQualifies, Bool.and_eq_true, Bool.not_eq_true'] at hq
    cases videoSrc with
    | none => simp [cardItems, cardImgItems, cardVidItems, cardIdUrls, hq.1]
    | some v =>
      cases hve : v.data.isEmpty with
      | true => simp [cardItems, cardImgItems, cardVidItems, cardIdUrls, hq.1, hve]
      | false => simp [cardItems, cardImgItems, cardVidItems, cardIdUrls, hq.1, hve]

theorem flatMap_items_stripped (now : Nat) (cards : List Card)
    (hq : ∀ c ∈ cards, cardQualifies c = true) :
    (cards.flatMap (cardItems now)).map (fun it => stripQuery it.url)
      = cards.flatMap cardIdUrls := by
  induction cards with
  | nil => rfl
  | cons c cs ih =>
    rw [List.flatMap_cons, List.flatMap_cons, List.map_append,
      cardItems_stripped now c (hq c (by simp)), ih (fun d hd => hq d (by simp [hd]))]

theorem flatMap_items_split_length (now : Nat) (cards : List Card) :
    (cards.flatMap (cardItems now)).length
      = (cards.flatMap (cardImgItems now)).length
        + (cards.flatMap (cardVidItems now)).length := by
  induction cards with
  | nil => rfl
  | cons c cs ih =>
    simp only [List.flatMap_cons, List.length_append, cardItems]
    omega

/-- Claim C3 (amended): over a fixed card list in which every card has a
qualifying image (truthy `src` passing the hostname allow-list), whose
identity URLs are pairwise distinct, and whose videos do not match the
HD-variant naming convention, one `saveBoth` collection pass starting
from a fresh seen-set appends exactly the per-card items — N+M image
items (one per card) and N video items (one per card with a video) — to
the caller-owned list without removing or reordering its existing
entries; each identity (query-stripped) URL appears at most once among
the appended items; and a second pass with the resulting seen-set and
unchanged DOM appends nothing.  (The amendment: when a video URL does
match the HD convention and the asynchronous HD probe succeeds, the code
appends one additional HD video item per such video, so the original
"exactly N video items" fails; see the counterexample.) -/
theorem c3_collector (now : Nat) (hdOk : String → Bool) (cards : List Card)
    (m0 : List MediaItem)
    (hq : ∀ c ∈ cards, cardQualifies c = true)
    (hhd : ∀ c ∈ cards, hdFreeCard c = true)
    (hnd : (cards.flatMap cardIdUrls).Nodup) :
    collectMediaFromVisibleCards "saveBoth" now hdOk cards m0 []
        = (m0 ++ cards.flatMap (cardItems now), consAll (cards.flatMap cardIdUrls) [])
    ∧ (cards.flatMap (cardItems now)).length
        = cards.length + (cards.filter hasVideoB).length
    ∧ (cards.flatMap (cardImgItems now)).length = cards.length
    ∧ (cards.flatMap (cardVidItems now)).length = (cards.filter hasVideoB).length
    ∧ ((cards.flatMap (cardItems now)).map (fun it => stripQuery it.url)).Nodup
    ∧ collectMediaFromVisibleCards "saveBoth" now hdOk cards
          (m0 ++ cards.flatMap (cardItems now)) (consAll (cards.flatMap cardIdUrls) [])
        = (m0 ++ cards.flatMap (cardItems now), consAll (cards.flatMap cardIdUrls) []) := by
  refine ⟨?_, ?_, ?_, ?_, ?_, ?_⟩
  · exact collect_fresh now hdOk cards m0 [] hq hhd hnd (fun u _ => rfl)
  · rw [flatMap_items_split_length, flatMap_imgItems_length now cards hq,
      flatMap_vidItems_length]
  · exact flatMap_imgItems_length now cards hq
  · exact flatMap_vidItems_length now cards
  · rw [flatMap_items_stripped now cards hq]
    exact hnd
  · exact collect_seenAll "saveBoth" now hdOk cards _ _
      (fun c hc u hu => (seenHas_consAll _ _ _).mpr
        (Or.inl (List.mem_flatMap.mpr ⟨c, hc, hu⟩)))

/-- Claim C3 counterexample: a single card holding a qualifying image and
a video whose URL matches the standard-quality naming convention, with
the HD probe succeeding.  Here N = 1, M = 0, so the claim predicts
exactly one image item and one video item (two items in total); the code
appends three — the image, the video, and the additional HD variant. -/
theorem c3_counterexample :
    (collectMediaFromVisibleCards "saveBoth" 0 (fun _ => true)
        [⟨some "https://grok.com/p/img1.png", some "https://v.test/a/generated_video.mp4"⟩]
        [] []).1
      = [⟨"https://grok.com/p/img1.png", "img1.png"⟩,
         ⟨"https://v.test/a/generated_video.mp4", "generated_video.mp4"⟩,
         ⟨"https://v.test/a/generated_video_hd.mp4", "generated_video-HD.mp4"⟩]
    ∧ ¬ (collectMediaFromVisibleCards "saveBoth" 0 (fun _ => true)
        [⟨some "https://grok.com/p/img1.png", some "https://v.test/a/generated_video.mp4"⟩]
        [] []).1.length = 2 := by
  constructor
  · decide
  · decide

theorem c3_collector_witness :
    collectMediaFromVisibleCards "saveBoth" 0 (fun _ => false)
        [⟨some "https://grok.com/p/a1.png", some "https://grok.com/p/v1.bin"⟩,
         ⟨some "https://grok.com/p/a2.png", none⟩] [] []
        = ([] ++ ([⟨some "https://grok.com/p/a1.png", some "https://grok.com/p/v1.bin"⟩,
             ⟨some "https://grok.com/p/a2.png", none⟩] : List Card).flatMap (cardItems 0),
           consAll (([⟨some "https://grok.com/p/a1.png", some "https://grok.com/p/v1.bin"⟩,
             ⟨some "https://grok.com/p/a2.png", none⟩] : List Card).flatMap cardIdUrls) [])
    ∧ (([⟨some "https://grok.com/p/a1.png", some "https://grok.com/p/v1.bin"⟩,
          ⟨some "https://grok.com/p/a2.png", none⟩] : List Card).flatMap (cardItems 0)).length
        = ([⟨some "https://grok.com/p/a1.png", some "https://grok.com/p/v1.bin"⟩,
            ⟨some "https://grok.com/p/a2.png", none⟩] : List Card).length
          + (([⟨some "https://grok.com/p/a1.png", some "https://grok.com/p/v1.bin"⟩,
               ⟨some "https://grok.com/p/a2.png", none⟩] : List Card).filter hasVideoB).length
    ∧ (([⟨some "https://grok.com/p/a1.png", some "https://grok.com/p/v1.bin"⟩,
          ⟨some "https://grok.com/p/a2.png", none⟩] : List Card).flatMap (cardImgItems 0)).length
        = ([⟨some "https://grok.com/p/a1.png", some "https://grok.com/p/v1.bin"⟩,
            ⟨some "https://grok.com/p/a2.png", none⟩] : List Card).length
    ∧ (([⟨some "https://grok.com/p/a1.png", some "https://grok.com/p/v1.bin"⟩,
          ⟨some "https://grok.com/p/a2.png", none⟩] : List Card).flatMap (cardVidItems 0)).length
        = (([⟨some "https://grok.com/p/a1.png", some "https://grok.com/p/v1.bin"⟩,
             ⟨some "https://grok.com/p/a2.png", none⟩] : List Card).filter hasVideoB).length
    ∧ ((([⟨some "https://grok.com/p/a1.png", some "https://grok.com/p/v1.bin"⟩,
           ⟨some "https://grok.com/p/a2.png", none⟩] : List Card).flatMap
            (cardItems 0)).map (fun it => stripQuery it.url)).Nodup
    ∧ collectMediaFromVisibleCards "saveBoth" 0 (fun _ => false)
          [⟨some "https://grok.com/p/a1.png", some "https://grok.com/p/v1.bin"⟩,
           ⟨some "https://grok.com/p/a2.png", none⟩]
          ([] ++ ([⟨some "https://grok.com/p/a1.png", some "https://grok.com/p/v1.bin"⟩,
              ⟨some "https://grok.com/p/a2.png", none⟩] : List Card).flatMap (cardItems 0))
          (consAll (([⟨some "https://grok.com/p/a1.png", some "https://grok.com/p/v1.bin"⟩,
              ⟨some "https://grok.com/p/a2.png", none⟩] : List Card).flatMap cardIdUrls) [])
        = ([] ++ ([⟨some "https://grok.com/p/a1.png", some "https://grok.com/p/v1.bin"⟩,
             ⟨some "https://grok.com/p/a2.png", none⟩] : List Card).flatMap (cardItems 0),
           consAll (([⟨some "https://grok.com/p/a1.png", some "https://grok.com/p/v1.bin"⟩,
             ⟨some "https://grok.com/p/a2.png", none⟩] : List Card).flatMap cardIdUrls) []) :=
  c3_collector 0 (fun _ => false)
    [⟨some "https://grok.com/p/a1.png", some "https://grok.com/p/v1.bin"⟩,
     ⟨some "https://grok.com/p/a2.png", none⟩] []
    (by decide) (by decide) (by decide)

theorem mem_hdStep (hdOk : String → Bool) (vsrc filename : String)
    (media : List MediaItem) (seen : List String) (x : MediaItem) (hx : x ∈ media) :
    x ∈ (hdStep hdOk vsrc filename media seen).1 := by
  unfold hdStep
  split
  · split
    · exact hx
    · split
      · exact List.mem_append_left _ hx
      · exact hx
  · exact hx

theorem collectCard_eq_of_imageBranch {ty : String} {now : Nat}
    (hdOk : String → Bool) {c : Card} {media m1 : List MediaItem}
    {seen s1 : List String} {nm : Option String}
    (hib : imageBranch ty now c media seen = (m1, s1, nm)) :
    collectCard ty now hdOk (media, seen) c = videoBranch ty now hdOk c m1 s1 nm := by
  unfold collectCard
  rw [hib]

theorem videoBranch_noVideo (ty : String) (now : Nat) (hdOk : String → Bool)
    (io : Option String) (m1 : List MediaItem) (s1 : List String) (nm : Option String) :
    videoBranch ty now hdOk ⟨io, none⟩ m1 s1 nm = (m1, s1) := by
  unfold videoBranch
  split <;> rfl

theorem videoBranch_push (ty : String) (now : Nat) (hdOk : String → Bool)
    (io : Option String) (vsrc : String) (m1 : List MediaItem) (s1 : List String)
    (nm : Option String)
    (hty : ty = "saveVideos" ∨ ty = "saveBoth")
    (hv : vsrc.data.isEmpty = false)
    (hs1 : seenHas s1 (stripQuery vsrc) = false) :
    videoBranch ty now hdOk ⟨io, some vsrc⟩ m1 s1 nm
      = hdStep hdOk vsrc (videoFilename now (stripQuery vsrc) nm)
          (m1 ++ [⟨vsrc, videoFilename now (stripQuery vsrc) nm⟩])
          (stripQuery vsrc :: s1) := by
  unfold videoBranch
  rw [if_pos hty]
  simp [hv, hs1]

/-- Claim C10: the hostname allow-list is consulted only for image URLs.
First part: a card's video element with truthy `src` and an unseen
identity URL is always recorded when the requested kind includes videos,
with no validity condition on the video URL — a video from any host is
accepted (the statement quantifies over arbitrary `v`, so in particular
over URLs failing `isValidUrl`).  Second part: an image whose identity
URL fails the allow-list is never recorded — the card contributes
nothing. -/
theorem c10_video_any_host (ty : String) (now : Nat) (hdOk : String → Bool)
    (io : Option String) (v : String) (media : List MediaItem) (seen : List String)
    (hty : ty = "saveVideos" ∨ ty = "saveBoth")
    (hv : v.data.isEmpty = false)
    (hseen : seenHas seen (stripQuery v) = false)
    (himg : ∀ s, io = some s → ¬ stripQuery s = stripQuery v) :
    (∃ fn, (⟨v, fn⟩ : MediaItem)
        ∈ (collectCard ty now hdOk (media, seen) ⟨io, some v⟩).1)
    ∧ (∀ i : String, i.data.isEmpty = false →
        isValidUrl (stripQuery i) URL_PATTERNS_IMAGE = false →
        collectCard ty now hdOk (media, seen) ⟨some i, none⟩ = (media, seen)) := by
  constructor
  · have hbranch : ∃ m1 s1 nm, imageBranch ty now ⟨io, some v⟩ media seen = (m1, s1, nm)
        ∧ (∀ x ∈ media, x ∈ m1) ∧ seenHas s1 (stripQuery v) = false := by
      cases io with
      | none => exact ⟨media, seen, none, rfl, fun x hx => hx, hseen⟩
      | some s =>
        by_cases hse : s.data.isEmpty = true
        · refine ⟨media, seen, none, ?_, fun x hx => hx, hseen⟩
          simp [imageBranch, hse]
        · simp only [Bool.not_eq_true] at hse
          by_cases hcond : (ty = "saveImages" ∨ ty = "saveBoth")
              ∧ seenHas seen (stripQuery s) = false
              ∧ isValidUrl (stripQuery s) URL_PATTERNS_IMAGE = true
          · refine ⟨media ++ [⟨s, determineFilename (stripQuery s) none false now⟩],
              stripQuery s :: seen, some (extractBaseName (stripQuery s)), ?_,
              fun x hx => List.mem_append_left _ hx, ?_⟩
            · simp [imageBranch, hse, hcond]
            · simp only [seenHas]
              rw [if_neg (himg s rfl)]
              exact hseen
          · refine ⟨media, seen, some (extractBaseName (stripQuery s)), ?_,
              fun x hx => hx, hseen⟩
            simp [imageBranch, hse, hcond]
    obtain ⟨m1, s1, nm, hib, hmono, hs1⟩ := hbranch
    refine ⟨videoFilename now (stripQuery v) nm, ?_⟩
    rw [collectCard_eq_of_imageBranch hdOk hib, videoBranch_push ty now hdOk io v
      m1 s1 nm hty hv hs1]
    exact mem_hdStep hdOk v _ _ _ _
      (List.mem_append_right m1 (by simp))
  · intro i hie hival
    have hib : imageBranch ty now ⟨some i, none⟩ media seen
        = (media, seen, some (extractBaseName (stripQuery i))) := by
      simp [imageBranch, hie, hival]
    rw [collectCard_eq_of_imageBranch hdOk hib, videoBranch_noVideo]

theorem c10_video_any_host_witness :
    ((∃ fn, (⟨"https://evil.example/clip.bin", fn⟩ : MediaItem)
        ∈ (collectCard "saveVideos" 0 (fun _ => false) ([], [])
            ⟨none, some "https://evil.example/clip.bin"⟩).1)
      ∧ (∀ i : String, i.data.isEmpty = false →
          isValidUrl (stripQuery i) URL_PATTERNS_IMAGE = false →
          collectCard "saveVideos" 0 (fun _ => false) ([], []) ⟨some i, none⟩ = ([], [])))
    ∧ isValidUrl (stripQuery "https://evil.example/clip.bin") URL_PATTERNS_IMAGE = false :=
  ⟨c10_video_any_host "saveVideos" 0 (fun _ => false) none "https://evil.example/clip.bin"
      [] [] (Or.inl rfl) (by decide) rfl (fun s hs => by cases hs),
   by decide⟩

/-! ## Theorems about the scroll driver -/

theorem scrollLoop_stable (ty : String) (now : Nat) (hdOk : String → Bool)
    (dom : Nat → List Card) (vh K : Nat)
    (h : ∀ k, K ≤ k → (dom k).length = (dom K).length) :
    ∀ fuel unchanged, 5 - unchanged ≤ fuel → ∀ k, K ≤ k → ∀ st media seen,
      (scrollLoop ty now hdOk dom vh fuel k st ((dom K).length) unchanged
        media seen).isSome := by
  intro fuel
  induction fuel with
  | zero =>
    intro u hu k hk st media seen
    have hlt : ¬ u < 5 := by omega
    simp [scrollLoop, hlt]
  | succ f ih =>
    intro u hu k hk st media seen
    by_cases hlt : u < 5
    · simp only [scrollLoop]
      rw [if_pos hlt, if_pos (h k hk)]
      exact ih (u + 1) (by omega) (k + 1) (by omega) _ _ _
    · simp [scrollLoop, hlt]

theorem scrollLoop_afterK (ty : String) (now : Nat) (hdOk : String → Bool)
    (dom : Nat → List Card) (vh K : Nat)
    (h : ∀ k, K ≤ k → (dom k).length = (dom K).length) :
    ∀ f, 5 ≤ f → ∀ k, K ≤ k → ∀ st last u media seen,
      (scrollLoop ty now hdOk dom vh (f + 1) k st last u media seen).isSome := by
  intro f hf k hk st last u media seen
  by_cases hlt : u < 5
  · simp only [scrollLoop]
    rw [if_pos hlt]
    by_cases hcl : (dom k).length = last
    · rw [if_pos hcl]
      have hl : last = (dom K).length := by rw [← hcl, h k hk]
      rw [hl]
      exact scrollLoop_stable ty now hdOk dom vh K h f (u + 1) (by omega) (k + 1)
        (by omega) _ _ _
    · rw [if_neg hcl, h k hk]
      exact scrollLoop_stable ty now hdOk dom vh K h f 0 (by omega) (k + 1)
        (by omega) _ _ _
  · simp [scrollLoop, hlt]

theorem scrollLoop_reach (ty : String) (now : Nat) (hdOk : String → Bool)
    (dom : Nat → List Card) (vh K : Nat)
    (h : ∀ k, K ≤ k → (dom k).length = (dom K).length) :
    ∀ j k, K ≤ k + j → ∀ f, j + 6 ≤ f → ∀ st last u media seen,
      (scrollLoop ty now hdOk dom vh f k st last u media seen).isSome := by
  intro j
  induction j with
  | zero =>
    intro k hk f hf st last u media seen
    obtain ⟨f2, rfl⟩ : ∃ f2, f = f2 + 1 := ⟨f - 1, by omega⟩
    exact scrollLoop_afterK ty now hdOk dom vh K h f2 (by omega) k
      (by omega) st last u media seen
  | succ j ih =>
    intro k hk f hf st last u media seen
    obtain ⟨f2, rfl⟩ : ∃ f2, f = f2 + 1 := ⟨f - 1, by omega⟩
    by_cases hK : K ≤ k
    · exact scrollLoop_afterK ty now hdOk dom vh K h f2 (by omega) k hK
        st last u media seen
    · by_cases hlt : u < 5
      · simp only [scrollLoop]
        rw [if_pos hlt]
        by_cases hcl : (dom k).length = last
        · rw [if_pos hcl]
          exact ih (k + 1) (by omega) f2 (by omega) _ _ _ _ _
        · rw [if_neg hcl]
          exact ih (k + 1) (by omega) f2 (by omega) _ _ _ _ _
      · simp [scrollLoop, hlt]

/-- Claim C4: whenever the page's card count stops changing from
iteration `K` onward, `scrollAndCollectMedia` terminates with fuel
`K + 6` — the loop exits once the stability counter reaches the
threshold 5, i.e. after at most 5 consecutive iterations with unchanged
card count past stabilization — and then performs one final collection
pass over the cards visible at exit, restores the scroll position to the
top (`scrollTop = 0`), and returns the accumulated media list. -/
theorem c4_scroll_terminates (ty : String) (now : Nat) (hdOk : String → Bool)
    (dom : Nat → List Card) (vh K : Nat)
    (h : ∀ k, K ≤ k → (dom k).length = (dom K).length) :
    ∃ e : LoopEnd, scrollLoop ty now hdOk dom vh (K + 6) 0 0 0 0 [] [] = some e
      ∧ scrollAndCollectMedia ty now hdOk dom vh (K + 6)
          = some ⟨(collectMediaFromVisibleCards ty now hdOk (dom e.iters)
              e.media e.seen).1, 0⟩ := by
  have hs := scrollLoop_reach ty now hdOk dom vh K h K 0 (by omega) (K + 6)
    (by omega) 0 0 0 [] []
  obtain ⟨e, he⟩ := Option.isSome_iff_exists.mp hs
  refine ⟨e, he, ?_⟩
  unfold scrollAndCollectMedia
  rw [he]

theorem c4_scroll_terminates_witness :
    ∃ e : LoopEnd,
      scrollLoop "saveBoth" 0 (fun _ => false) (fun _ => []) 10 (0 + 6) 0 0 0 0 [] []
        = some e
      ∧ scrollAndCollectMedia "saveBoth" 0 (fun _ => false) (fun _ => []) 10 (0 + 6)
          = some ⟨(collectMediaFromVisibleCards "saveBoth" 0 (fun _ => false)
              ((fun _ => ([] : List Card)) e.iters) e.media e.seen).1, 0⟩ :=
  c4_scroll_terminates "saveBoth" 0 (fun _ => false) (fun _ => []) 10 0
    (fun _ _ => rfl)

/-! ## Theorems about the download orchestrator -/

/-- Claim C5 (amended): `handleDownloads` rejects with the input error
`"No media provided for download"` — leaving the persisted state
untouched — exactly when the request's media is not an array (`none`)
or is the empty list.  A non-empty list containing malformed items is
NOT rejected (see the counterexample); instead each malformed item is
silently skipped at download time: `downloadFile` issues no platform
call and signals no error for an item missing a truthy url or
filename. -/
theorem c5_reject (st : Store) :
    (∀ m : Option (List BItem), (m = none ∨ m = some []) →
        handleDownloads m st = (st, .error "No media provided for download"))
    ∧ (∀ it : BItem, (jsTruthy it.url = false ∨ jsTruthy it.filename = false) →
        downloadFile it = none) := by
  constructor
  · rintro m (rfl | rfl) <;> rfl
  · intro it h
    unfold downloadFile
    rcases h with h | h <;> simp [h]

theorem c5_reject_witness :
    handleDownloads none emptyStore
        = (emptyStore, .error "No media provided for download")
    ∧ handleDownloads (some []) emptyStore
        = (emptyStore, .error "No media provided for download")
    ∧ downloadFile ⟨none, some "a.png"⟩ = none :=
  ⟨(c5_reject emptyStore).1 none (Or.inl rfl),
   (c5_reject emptyStore).1 (some []) (Or.inr rfl),
   (c5_reject emptyStore).2 ⟨none, some "a.png"⟩ (Or.inl rfl)⟩

/-- Claim C5 counterexample: a non-empty media list whose single item is
missing its url is malformed, yet `handleDownloads` accepts it — no
input error — and mutates the persisted state (`totalDownloads` becomes
1 and `downloadProgress` becomes `{}`, both previously absent). -/
theorem c5_counterexample :
    handleDownloads (some [⟨none, some "a.png"⟩]) emptyStore
        = ({ totalDownloads := some 1, downloadProgress := some [] },
           Except.ok [(0, ⟨none, some "a.png"⟩)])
    ∧ ¬ ({ totalDownloads := some 1, downloadProgress := some [] } : Store)
        = emptyStore := by
  constructor
  · rfl
  · intro h
    exact Option.noConfusion (congrArg Store.totalDownloads h)

theorem withDelays_map_snd (i : Nat) (l : List BItem) :
    (withDelays i l).map Prod.snd = l := by
  induction l generalizing i with
  | nil => rfl
  | cons it rest ih => simp [withDelays, ih]

/-- Claim C6: for every non-empty, well-formed media list of length `n`,
the `startDownloads` message handler persists `totalDownloads = n` and
`downloadProgress = {}` (overwriting any prior run's state, whatever
`st` held), schedules item `i` at delay `i * 1000` ms (`withDelays 0`),
so enqueue order matches input order one-to-one, and produces the
`{success: true}` response together with the schedule — i.e. as soon as
the enqueues are scheduled, with no dependence on any download
finishing (download completion events are processed by the separate
`onDownloadChanged` listener and do not enter this computation). -/
theorem c6_accept (l : List BItem) (st : Store) (hne : ¬ l = [])
    (hwf : ∀ it ∈ l, jsTruthy it.url = true ∧ jsTruthy it.filename = true) :
    onMessage ⟨"startDownloads", some l⟩ st
        = ({ totalDownloads := some l.length, downloadProgress := some [] },
           some ⟨true, none⟩, withDelays 0 l)
    ∧ (withDelays 0 l).map Prod.snd = l := by
  refine ⟨?_, withDelays_map_snd 0 l⟩
  have hemp : l.isEmpty = false := by
    cases l with
    | nil => exact absurd rfl hne
    | cons a as => rfl
  simp [onMessage, handleDownloads, hemp]

theorem c6_accept_witness :
    onMessage ⟨"startDownloads",
        some [⟨some "https://grok.com/a.png", some "a.png"⟩,
              ⟨some "https://grok.com/b.mp4", some "b.mp4"⟩]⟩
        ⟨some 7, some [(3, DStatus.complete)]⟩
      = ({ totalDownloads := some 2, downloadProgress := some [] },
         some ⟨true, none⟩,
         withDelays 0 [⟨some "https://grok.com/a.png", some "a.png"⟩,
                       ⟨some "https://grok.com/b.mp4", some "b.mp4"⟩])
    ∧ (withDelays 0 [(⟨some "https://grok.com/a.png", some "a.png"⟩ : BItem),
          ⟨some "https://grok.com/b.mp4", some "b.mp4"⟩]).map Prod.snd
        = [⟨some "https://grok.com/a.png", some "a.png"⟩,
           ⟨some "https://grok.com/b.mp4", some "b.mp4"⟩] :=
  c6_accept
    [⟨some "https://grok.com/a.png", some "a.png"⟩,
     ⟨some "https://grok.com/b.mp4", some "b.mp4"⟩]
    ⟨some 7, some [(3, DStatus.complete)]⟩ (by decide) (by decide)

theorem progressKeys_setKey (id : Nat) (v : DStatus) (p : ProgressMap) :
    ∀ k ∈ progressKeys (setKey id v p), k = id ∨ k ∈ progressKeys p := by
  induction p with
  | nil =>
    intro k hk
    simp [setKey, progressKeys] at hk
    exact Or.inl hk
  | cons hd rest ih =>
    obtain ⟨kk, vv⟩ := hd
    intro k hk
    by_cases hkk : kk = id
    · simp only [setKey, if_pos hkk, progressKeys, List.map_cons, List.mem_cons] at hk ⊢
      tauto
    · simp only [setKey, if_neg hkk, progressKeys, List.map_cons, List.mem_cons] at hk ⊢
      rcases hk with h | h
      · tauto
      · rcases ih k h with h2 | h2 <;> tauto

theorem runEvents_keys (events : List Delta) (enq : List Nat) :
    ∀ st : Store,
      (∀ d ∈ events,
        (d.state = some "complete" ∨ d.state = some "interrupted") → d.id ∈ enq) →
      (∀ k ∈ progressKeys (st.downloadProgress.getD []), k ∈ enq) →
      ∀ k ∈ progressKeys ((runEvents events st).downloadProgress.getD []), k ∈ enq := by
  induction events with
  | nil => exact fun st _ hst k hk => hst k hk
  | cons d ds ih =>
    intro st h hst k hk
    refine ih (onDownloadChanged d st)
      (fun e he hterm => h e (by simp [he]) hterm) ?_ k hk
    intro k2 hk2
    cases hds : d.state with
    | none =>
      rw [show onDownloadChanged d st = st by unfold onDownloadChanged; rw [hds]] at hk2
      exact hst k2 hk2
    | some cur =>
      have hodc : (onDownloadChanged d st).downloadProgress
          = some (applyProgress d (st.downloadProgress.getD [])) := by
        unfold onDownloadChanged
        rw [hds]
      rw [hodc] at hk2
      simp only [Option.getD_some] at hk2
      by_cases hc : cur = "complete"
      · have hap : applyProgress d (st.downloadProgress.getD [])
            = setKey d.id .complete (st.downloadProgress.getD []) := by
          unfold applyProgress
          rw [hds]
          simp [hc]
        rw [hap] at hk2
        rcases progressKeys_setKey d.id .complete _ k2 hk2 with rfl | hmem
        · exact h d (by simp) (Or.inl (by rw [hds, hc]))
        · exact hst k2 hmem
      · by_cases hi : cur = "interrupted"
        · have hap : applyProgress d (st.downloadProgress.getD [])
              = setKey d.id .failed (st.downloadProgress.getD []) := by
            unfold applyProgress
            rw [hds]
            simp [hc, hi]
          rw [hap] at hk2
          rcases progressKeys_setKey d.id .failed _ k2 hk2 with rfl | hmem
          · exact h d (by simp) (Or.inr (by rw [hds, hi]))
          · exact hst k2 hmem
        · have hap : applyProgress d (st.downloadProgress.getD [])
              = st.downloadProgress.getD [] := by
            unfold applyProgress
            rw [hds]
            simp [hc, hi]
          rw [hap] at hk2
          exact hst k2 hk2

/-- Claim C7 (amended): starting from the state `handleDownloads`
persists for a run (`downloadProgress = {}`), every key of the persisted
progress map after any sequence of platform state-change events is the
id of some delivered terminal event; hence, PROVIDED the platform
delivers terminal (`complete`/`interrupted`) state changes only for
download ids enqueued in the current run, the key set stays a subset of
the ids enqueued this run.  The proviso is necessary: the listener
subscribes to the global `chrome.downloads.onChanged` feed and does not
filter foreign download ids (see the counterexample). -/
theorem c7_keys_subset (n : Nat) (events : List Delta) (enq : List Nat)
    (h : ∀ d ∈ events,
      (d.state = some "complete" ∨ d.state = some "interrupted") → d.id ∈ enq) :
    ∀ k ∈ progressKeys ((runEvents events (initStore n)).downloadProgress.getD []),
      k ∈ enq := by
  exact runEvents_keys events enq (initStore n) h (fun k hk => by
    simp [initStore, progressKeys] at hk)

theorem c7_keys_subset_witness :
    (1 : Nat) ∈ progressKeys ((runEvents [⟨1, some "complete"⟩, ⟨2, some "in_progress"⟩]
        (initStore 2)).downloadProgress.getD [])
    ∧ (1 : Nat) ∈ [1, 2] :=
  ⟨by decide,
   c7_keys_subset 2 [⟨1, some "complete"⟩, ⟨2, some "in_progress"⟩] [1, 2]
     (by decide) 1 (by decide)⟩

/-- Claim C7 counterexample: a run that enqueued one download, assigned
platform id 1.  An unrelated browser download with id 99 reaches
`complete` during the run; the listener records it, so the persisted
key set `[99]` is not a subset of the enqueued ids `[1]`. -/
theorem c7_counterexample :
    progressKeys ((runEvents [⟨99, some "complete"⟩]
        (initStore 1)).downloadProgress.getD []) = [99]
    ∧ ¬ (99 : Nat) ∈ [1] := by decide

theorem getKey_setKey_self (id : Nat) (v : DStatus) (p : ProgressMap) :
    getKey id (setKey id v p) = some v := by
  induction p with
  | nil => simp [setKey, getKey]
  | cons hd rest ih =>
    obtain ⟨k, w⟩ := hd
    by_cases hk : k = id
    · simp [setKey, getKey, hk]
    · simp [setKey, getKey, hk, ih]

theorem getKey_setKey_ne (id i : Nat) (v : DStatus) (p : ProgressMap)
    (hne : ¬ id = i) : getKey i (setKey id v p) = getKey i p := by
  induction p with
  | nil => simp [setKey, getKey, hne]
  | cons hd rest ih =>
    obtain ⟨k, w⟩ := hd
    by_cases hk : k = id
    · subst hk
      simp [setKey, getKey, hne]
    · simp [setKey, getKey, hk, ih]

/-- Claim C8 (amended): the per-item status map evolves under the
platform state-change feed exactly as claimed — `'complete'` sets an
entry to `complete`, `'interrupted'` sets it to `failed`, absent states
and all other transitions leave the map unchanged — and an entry, once
present, survives every event that is not a terminal event for that same
id (in particular no entry ever reverts to pending, and no retry logic
exists).  The amendment: the claim's "once complete or failed it never
changes on any later event" does not hold against an arbitrary feed —
the listener overwrites terminal statuses when the platform delivers a
second terminal event for the same id, as happens when an interrupted
download is resumed and completes (see the counterexample). -/
theorem c8_status_transitions :
    (∀ (i : Nat) (p : ProgressMap),
        getKey i (applyProgress ⟨i, some "complete"⟩ p) = some DStatus.complete)
    ∧ (∀ (i : Nat) (p : ProgressMap),
        getKey i (applyProgress ⟨i, some "interrupted"⟩ p) = some DStatus.failed)
    ∧ (∀ (i : Nat) (p : ProgressMap), applyProgress ⟨i, none⟩ p = p)
    ∧ (∀ (i : Nat) (cur : String) (p : ProgressMap),
        ¬ cur = "complete" → ¬ cur = "interrupted" →
        applyProgress ⟨i, some cur⟩ p = p)
    ∧ (∀ (d : Delta) (p : ProgressMap) (i : Nat) (s : DStatus),
        getKey i p = some s →
        (¬ d.id = i ∨ (¬ d.state = some "complete" ∧ ¬ d.state = some "interrupted")) →
        getKey i (applyProgress d p) = some s) := by
  refine ⟨?_, ?_, ?_, ?_, ?_⟩
  · intro i p
    simp [applyProgress, getKey_setKey_self]
  · intro i p
    simp [applyProgress, getKey_setKey_self]
  · intro i p
    rfl
  · intro i cur p hc hi
    simp [applyProgress, hc, hi]
  · intro d p i s hp hguard
    obtain ⟨id, state⟩ := d
    cases state with
    | none => exact hp
    | some cur =>
      simp only at hguard
      by_cases hc : cur = "complete"
      · subst hc
        rcases hguard with hid | ⟨habs, _⟩
        · rw [show applyProgress ⟨id, some "complete"⟩ p = setKey id .complete p from by
            simp [applyProgress]]
          rw [getKey_setKey_ne id i _ p hid]
          exact hp
        · exact absurd rfl habs
      · by_cases hi2 : cur = "interrupted"
        · subst hi2
          rcases hguard with hid | ⟨_, habs⟩
          · rw [show applyProgress ⟨id, some "interrupted"⟩ p = setKey id .failed p from by
              simp [applyProgress]]
            rw [getKey_setKey_ne id i _ p hid]
            exact hp
          · exact absurd rfl habs
        · rw [show applyProgress ⟨id, some cur⟩ p = p from by simp [applyProgress, hc, hi2]]
          exact hp

theorem c8_status_transitions_witness :
    getKey 1 (applyProgress ⟨2, some "complete"⟩ [(1, DStatus.failed)])
      = some DStatus.failed :=
  c8_status_transitions.2.2.2.2 ⟨2, some "complete"⟩ [(1, DStatus.failed)] 1
    DStatus.failed (by decide) (Or.inl (by decide))

/-- Claim C8 counterexample: an entry already `failed` (the download was
interrupted) is overwritten to `complete` when the platform later
reports the same id complete — e.g. after the user resumes the download
— so a terminal status is not immutable under the code. -/
theorem c8_counterexample :
    getKey 1 (applyProgress ⟨1, some "complete"⟩ [(1, DStatus.failed)])
        = some DStatus.complete
    ∧ ¬ DStatus.complete = DStatus.failed := by decide

/-! ## Theorems about the unfavorite sequencer -/

/-- Claim C9, evaluated at the failing input (code bug): `handleUnsave`
behaves as claimed for non-`unsaveBoth` kinds (no-op), for zero
qualifying items ("nothing to do"), and captures and schedules exactly
one click per qualifying item in capture order with try/catch around
each activation (`runClicks` attempts every scheduled click whatever
fails).  But the clicks are NOT spaced at a fixed inter-click interval:
`handleUnsave` reads `TIMING.UNFAVORITE_DELAY`, which src/content.js
never defines (its `TIMING` object holds only `NAVIGATION_DELAY`), so
`index * TIMING.UNFAVORITE_DELAY` is `NaN` and `setTimeout` coerces the
delay to 0 — with two qualifying items both clicks are scheduled at
delay 0, not at 0 and the intended fixed interval. -/
theorem c9_unsave_delay_bug :
    handleUnsave "unsaveBoth"
        [⟨true, true, some 1⟩, ⟨true, true, some 2⟩]
      = UnsaveResult.scheduled [⟨0, 1⟩, ⟨0, 2⟩]
    ∧ handleUnsave "unsaveImages" [⟨true, true, some 1⟩] = UnsaveResult.noop
    ∧ handleUnsave "unsaveVideos" [⟨true, true, some 1⟩] = UnsaveResult.noop
    ∧ handleUnsave "unsaveBoth" [⟨true, false, some 1⟩, ⟨false, true, some 2⟩]
        = UnsaveResult.nothingToDo
    ∧ runClicks (fun b => b == 1) [⟨0, 1⟩, ⟨0, 2⟩] = [false, true] := by
  decide
